import Mathlib

/-!
Verification development for the conduktr event-driven workflow orchestrator.

The definitions below are a shallow embedding of the Go sources:
  - `internal/marketplace/marketplace.go` (package engine): the workflow
    execution engine (`ExecuteWorkflow`, `evaluateCondition`,
    `calculateBackoff`, `RegisterWorkflow`, `GetWorkflowForEvent`,
    `LoadWorkflowFromYAML` / `validateWorkflow`).
  - `internal/orchestration/orchestrator.go`: the retry policy engine
    (`calculateRetryDelay`).
  - `internal/ai/workflow_builder.go` (package persistence): the JSON state
    store (`SaveWorkflowInstance`, `GetWorkflowInstance`) and the template
    resolver (`resolveTemplate`).
  - `internal/triggers/helper.go`: the shared trigger dispatch helper
    (`executeWorkflow`).

Go maps are modelled as association lists or as functions to `Option`;
`time.Duration` is `Int` (int64 nanoseconds) with explicit two's-complement
wrap-around where overflow can occur; Go errors are `Option String` /
`Except String`.  External effects (the action registry and Go's
`text/template` execution inside a step) are passed to the engine loop as
explicit oracle functions giving the result of each call site.
-/

namespace Conduktr

/-- Dynamic values, modelling Go `interface\x7b\x7d` data as it appears in event
payloads, step configuration, action outputs and JSON documents. -/
inductive Value where
  | vNull
  | vBool (b : Bool)
  | vInt (n : Int)
  | vStr (s : String)
  | vList (xs : List Value)
  | vMap (m : List (String × Value))

/-- Lookup in a Go `map[string]interface\x7b\x7d`, modelled as an association
list: the first binding of the key wins. -/
def assocLookup : List (String × Value) → String → Option Value
  | [], _ => none
  | (k, v) :: rest, key => if k = key then some v else assocLookup rest key

/-- Map assignment `m[key] = v`: replace the binding of `key` if present,
otherwise append it. -/
def assocSet : List (String × Value) → String → Value → List (String × Value)
  | [], key, v => [(key, v)]
  | (k, w) :: rest, key, v =>
    if k = key then (k, v) :: rest else (k, w) :: assocSet rest key v

/-- RetryConfig (marketplace.go:1328-1331): per-step retry behaviour from the
YAML definition.  `Max` is a Go `int`, `Backoff` a string. -/
structure RetryConfig where
  Max : Int
  Backoff : String
deriving Repr, DecidableEq

/-- WorkflowStep (marketplace.go:1319-1325).  `Config` holds the remaining
inline YAML keys (values are templates or plain values). -/
structure WorkflowStep where
  Name : String
  Action : String
  If : String
  Config : List (String × Value)
  Retry : Option RetryConfig

/-- Workflow (marketplace.go:1307-1311).  `OnEvent` flattens the nested
`On.Event` trigger configuration; `Workflow` is the ordered step list. -/
structure Workflow where
  Name : String
  OnEvent : String
  Workflow : List WorkflowStep

/-- StepExecution (workflow_builder.go:1490-1499).  `Error` is a Go string
(empty when unset); `EndTimeSet` records whether `EndTime` was assigned
(wall-clock values themselves are not modelled).  `Input` and `Output` are
not needed by the engine-loop control flow and are elided here. -/
structure StepExecution where
  Name : String
  Status : String
  Retries : Nat
  Error : String
  EndTimeSet : Bool
deriving Repr, DecidableEq

/-- WorkflowInstance (workflow_builder.go:1477-1487), restricted to the fields
the engine loop assigns: `ID`, `WorkflowName`, `Status`, `Error`, presence of
`EndTime`, and the ordered step history. -/
structure WorkflowInstance where
  ID : String
  WorkflowName : String
  Status : String
  Error : String
  EndTimeSet : Bool
  Steps : List StepExecution
deriving Repr, DecidableEq

/-- The switch of Engine.evaluateCondition (marketplace.go:1268-1276) applied
to the already-resolved condition string: explicit truthy and falsy literals,
any other string is truthy iff non-empty. -/
def condTruthy (s : String) : Bool :=
  if s = "true" ∨ s = "1" ∨ s = "yes" then true
  else if s = "false" ∨ s = "0" ∨ s = "no" ∨ s = "" then false
  else s != ""

/-- Engine.evaluateCondition (marketplace.go:1260-1277): resolve the condition
template (the resolution result is passed in), then apply the truthiness
switch.  A resolution error propagates. -/
def evaluateCondition (resolved : Except String String) : Except String Bool :=
  match resolved with
  | .error e => .error e
  | .ok s => .ok (condTruthy s)

/-- The attempt cap computed at marketplace.go:1152-1155: `maxRetries := 1;
if step.Retry != nil && step.Retry.Max > 0 \x7b maxRetries = step.Retry.Max \x7d`. -/
def maxRetriesOf (step : WorkflowStep) : Nat :=
  match step.Retry with
  | some r => if r.Max > 0 then r.Max.toNat else 1
  | none => 1

/-- Result of the per-step retry loop: the final value of `stepExec.Retries`,
the final value of `err`, and the list of 0-indexed attempt numbers at which
`executeStep` was invoked, in order. -/
structure RetryResult where
  retries : Nat
  err : Option String
  attempts : List Nat
deriving Repr, DecidableEq

/-- The retry loop of marketplace.go:1157-1178, `for attempt := 0; attempt <
maxRetries; attempt++`: set `stepExec.Retries = attempt`, call `executeStep`
(the oracle `f attempt` gives its result: `none` = success), break on
success.  `fuel` is the number of remaining iterations (`maxRetries -
attempt`); `cur` carries the values `(stepExec.Retries, err)` hold when the
loop exits without running another iteration.  Inter-attempt backoff sleeps
(lines 1158-1166) do not affect the data flow and are elided. -/
def retryAux (f : Nat → Option String) : Nat → Nat → Nat × Option String → RetryResult
  | _, 0, cur => ⟨cur.1, cur.2, []⟩
  | attempt, fuel + 1, _ =>
    match f attempt with
    | none => ⟨attempt, none, [attempt]⟩
    | some e =>
      let r := retryAux f (attempt + 1) fuel (attempt, some e)
      ⟨r.retries, r.err, attempt :: r.attempts⟩

/-- The whole retry loop entered with `attempt = 0`, `stepExec.Retries = 0`
and `var err error` (nil). -/
def retryLoop (f : Nat → Option String) (maxRetries : Nat) : RetryResult :=
  retryAux f 0 maxRetries (0, none)

/-- Outcome of the condition gate at the head of the step loop
(marketplace.go:1132-1148). -/
inductive StepGate where
  | run
  | skip
  | condFailed (e : String)
deriving Repr, DecidableEq

/-- The condition gate (marketplace.go:1132-1148): when `step.If` is
non-empty, evaluate it (`resolveIf i` is the result of
`eventCtx.ResolveTemplate(step.If)` at step index `i`); an evaluation error
or a falsy result short-circuits the step. -/
def stepGate (resolveIf : Nat → Except String String) (step : WorkflowStep) (i : Nat) : StepGate :=
  if step.If ≠ "" then
    match evaluateCondition (resolveIf i) with
    | .error e => .condFailed e
    | .ok shouldExecute => if shouldExecute then .run else .skip
  else .run

/-- Outcome of the step loop: all steps processed, or aborted at a step whose
attempts were exhausted. -/
inductive ExecOutcome where
  | success
  | failure (stepName : String) (errMsg : String)
deriving Repr, DecidableEq

/-- Accumulated result of the step loop: the recorded step executions in
order, the log of `executeStep` invocations as (step index, attempt) pairs in
order, and the outcome. -/
structure LoopResult where
  steps : List StepExecution
  log : List (Nat × Nat)
  outcome : ExecOutcome
deriving Repr, DecidableEq

/-- The step loop of Engine.ExecuteWorkflow (marketplace.go:1123-1206), from
step index `i`.  Per step: a condition-evaluation error records a `failed`
StepExecution (no end time) and continues (lines 1135-1140); a falsy
condition records a `skipped` StepExecution with end time and continues
(lines 1141-1147); otherwise the retry loop runs, and on a final error the
step and loop abort (lines 1180-1195), else a `completed` StepExecution is
recorded and the loop continues (lines 1197-1205).  `stepResult i a` is the
result of the `executeStep` call for step index `i`, attempt `a`. -/
def execSteps (resolveIf : Nat → Except String String) (stepResult : Nat → Nat → Option String) :
    List WorkflowStep → Nat → LoopResult
  | [], _ => ⟨[], [], .success⟩
  | step :: rest, i =>
    match stepGate resolveIf step i with
    | .condFailed e =>
      let r := execSteps resolveIf stepResult rest (i + 1)
      ⟨⟨step.Name, "failed", 0, "condition evaluation failed: " ++ e, false⟩ :: r.steps,
        r.log, r.outcome⟩
    | .skip =>
      let r := execSteps resolveIf stepResult rest (i + 1)
      ⟨⟨step.Name, "skipped", 0, "", true⟩ :: r.steps, r.log, r.outcome⟩
    | .run =>
      let rr := retryLoop (stepResult i) (maxRetriesOf step)
      match rr.err with
      | some e =>
        ⟨[⟨step.Name, "failed", rr.retries, e, true⟩],
          rr.attempts.map (fun a => (i, a)), .failure step.Name e⟩
      | none =>
        let r := execSteps resolveIf stepResult rest (i + 1)
        ⟨⟨step.Name, "completed", rr.retries, "", true⟩ :: r.steps,
          rr.attempts.map (fun a => (i, a)) ++ r.log, r.outcome⟩

/-- Engine.ExecuteWorkflow (marketplace.go:1101-1222).  The instance starts
`running` with empty error; on a step failure it ends `failed` with error
`Step <name> failed: <err>` and end time set, and the call returns an error
(lines 1180-1195); otherwise it ends `completed` with end time set and the
call returns the instance id (lines 1208-1221).  `instanceID` stands for the
generated UUID; persistence saves (which never alter control flow, their
errors being only logged) are elided.  Returns (instance, executeStep
invocation log, result). -/
def ExecuteWorkflow (instanceID : String) (w : Workflow)
    (resolveIf : Nat → Except String String) (stepResult : Nat → Nat → Option String) :
    WorkflowInstance × List (Nat × Nat) × Except String String :=
  let r := execSteps resolveIf stepResult w.Workflow 0
  match r.outcome with
  | .failure n e =>
    (⟨instanceID, w.Name, "failed", "Step \x27" ++ n ++ "\x27 failed: " ++ e, true, r.steps⟩,
      r.log, .error ("workflow failed at step \x27" ++ n ++ "\x27: " ++ e))
  | .success =>
    (⟨instanceID, w.Name, "completed", "", true, r.steps⟩, r.log, .ok instanceID)

/-- A step is fatal when its gate lets it run and the retry loop exhausts all
attempts without success: exactly the condition under which ExecuteWorkflow
aborts (marketplace.go:1180-1195). -/
def stepFatal (resolveIf : Nat → Except String String) (stepResult : Nat → Nat → Option String)
    (step : WorkflowStep) (i : Nat) : Bool :=
  match stepGate resolveIf step i with
  | .run => (retryLoop (stepResult i) (maxRetriesOf step)).err.isSome
  | _ => false

/-- No step of the list, processed from index `i`, is fatal. -/
def noFatal (resolveIf : Nat → Except String String) (stepResult : Nat → Nat → Option String) :
    List WorkflowStep → Nat → Bool
  | [], _ => true
  | step :: rest, i =>
    !stepFatal resolveIf stepResult step i && noFatal resolveIf stepResult rest (i + 1)

/-- Every step's condition gate, processed from index `i`, avoids the
condition-evaluation-error path of marketplace.go:1135-1140. -/
def condsOk (resolveIf : Nat → Except String String) :
    List WorkflowStep → Nat → Bool
  | [], _ => true
  | step :: rest, i =>
    (match stepGate resolveIf step i with
      | .condFailed _ => false
      | _ => true) && condsOk resolveIf rest (i + 1)

/-! ### Retry policy engine (orchestrator.go) and Engine.calculateBackoff -/

/-- Two's-complement wrap-around of Go int64 arithmetic. -/
def wrap64 (x : Int) : Int := (x + 2 ^ 63) % 2 ^ 64 - 2 ^ 63

/-- Go conversion `uint(x)` of an int64, as a natural number mod 2^64. -/
def toUint64 (x : Int) : Nat := (x % 2 ^ 64).toNat

/-- The Go expression `1 << k` on int64 for an unsigned shift count `k`:
shift counts of 64 or more yield 0, otherwise the power of two wrapped to
int64. -/
def goShl1 (k : Nat) : Int := if k < 64 then wrap64 (2 ^ k) else 0

/-- One second in nanoseconds (`time.Second`). -/
def goSecond : Int := 1000000000

/-- Engine.calculateBackoff (marketplace.go:1280-1291): a nil retry config
gives one second; `exponential` gives `time.Second *
time.Duration(1<<uint(attempt))`; every other backoff value gives the
one-second base.  The RetryConfig carries no base or maximum delay. -/
def calculateBackoff (retry : Option RetryConfig) (attempt : Int) : Int :=
  match retry with
  | none => goSecond
  | some r =>
    if r.Backoff = "exponential" then wrap64 (goSecond * goShl1 (toUint64 attempt))
    else goSecond

/-- RetryPolicy (orchestrator.go:106-113): max retries, base delay
(`RetryDelay`), backoff type and optional cap (`MaxDelay`), delays in int64
nanoseconds. -/
structure RetryPolicy where
  MaxRetries : Int
  RetryDelay : Int
  BackoffType : String
  MaxDelay : Int
deriving Repr, DecidableEq

/-- Orchestrator.calculateRetryDelay (orchestrator.go:627-643): `linear` gives
`RetryDelay * attempt`; `exponential` gives `RetryDelay *
time.Duration(1<<uint(attempt-1))` capped at `MaxDelay` when `MaxDelay > 0`;
`random` adds `time.Now().UnixNano() % RetryDelay` jitter (`nowNanos` passes
the clock reading in; Go panics when `RetryDelay = 0`, the model returns the
`Int.tmod` total value there); any other type gives `RetryDelay`. -/
def calculateRetryDelay (policy : RetryPolicy) (attempt : Int) (nowNanos : Int) : Int :=
  if policy.BackoffType = "linear" then
    wrap64 (policy.RetryDelay * attempt)
  else if policy.BackoffType = "exponential" then
    let delay := wrap64 (policy.RetryDelay * goShl1 (toUint64 (attempt - 1)))
    if policy.MaxDelay > 0 ∧ delay > policy.MaxDelay then policy.MaxDelay else delay
  else if policy.BackoffType = "random" then
    wrap64 (policy.RetryDelay + Int.tmod nowNanos policy.RetryDelay)
  else
    policy.RetryDelay

/-! ### Engine registration table (marketplace.go:1068-1098) -/

/-- The engine's event-type to workflow table (`Engine.workflows`,
marketplace.go:1069-1074); logger, registry and store do not affect
registration or lookup and are elided. -/
structure Engine where
  workflows : String → Option Workflow

/-- Engine.RegisterWorkflow (marketplace.go:1087-1092):
`e.workflows[workflow.On.Event] = workflow`. -/
def RegisterWorkflow (e : Engine) (w : Workflow) : Engine :=
  ⟨fun ev => if ev = w.OnEvent then some w else e.workflows ev⟩

/-- Engine.GetWorkflowForEvent (marketplace.go:1095-1098): map lookup
returning the workflow and the `exists` flag. -/
def GetWorkflowForEvent (e : Engine) (eventType : String) : Option Workflow × Bool :=
  match e.workflows eventType with
  | some w => (some w, true)
  | none => (none, false)

/-! ### Workflow validation (marketplace.go:1344-1393) -/

/-- The per-step validation loop of validateWorkflow
(marketplace.go:1371-1390), returning the first error. -/
def validateSteps : List WorkflowStep → Nat → Option String
  | [], _ => none
  | step :: rest, i =>
    if step.Name = "" then
      some ("step " ++ toString i ++ ": name is required")
    else if step.Action = "" then
      some ("step " ++ toString i ++ " (" ++ step.Name ++ "): action is required")
    else
      match step.Retry with
      | some r =>
        if r.Max < 1 then
          some ("step " ++ toString i ++ " (" ++ step.Name ++ "): retry.max must be >= 1")
        else if r.Backoff ≠ "" ∧ r.Backoff ≠ "exponential" ∧ r.Backoff ≠ "linear" then
          some ("step " ++ toString i ++ " (" ++ step.Name ++
            "): retry.backoff must be \x27exponential\x27 or \x27linear\x27")
        else validateSteps rest (i + 1)
      | none => validateSteps rest (i + 1)

/-- validateWorkflow (marketplace.go:1358-1393): `none` means the definition
is accepted, `some e` is the (first) descriptive rejection error. -/
def validateWorkflow (w : Workflow) : Option String :=
  if w.Name = "" then some "workflow name is required"
  else if w.OnEvent = "" then some "workflow trigger event is required"
  else if w.Workflow.length = 0 then some "workflow must have at least one step"
  else validateSteps w.Workflow 0

/-- Well-formedness of a step's retry configuration as the validator accepts
it: absent, or max at least 1 with backoff empty, `exponential` or `linear`. -/
def retryOk : Option RetryConfig → Bool
  | none => true
  | some r =>
    decide (1 ≤ r.Max) && (r.Backoff == "" || r.Backoff == "exponential" || r.Backoff == "linear")

/-- Spec-side well-formedness of a workflow definition (spec section 6
validation rules, with the recognized backoff set the code enforces), for
comparison with `validateWorkflow`. -/
def wellFormedWorkflow (w : Workflow) : Bool :=
  w.Name != "" && w.OnEvent != "" && !w.Workflow.isEmpty &&
    w.Workflow.all (fun step => step.Name != "" && step.Action != "" && retryOk step.Retry)

/-! ### Template resolution (workflow_builder.go:1618-1698)

`resolveTemplate` delegates to Go `text/template` with the default options.
The definitions below model the execution of a parsed template consisting of
literal text and field-chain actions `\x7b\x7b .a.b.c \x7d\x7d` against the
data tree built at workflow_builder.go:1624-1632, following the documented
`text/template` semantics: with the default `missingkey` option a missing map
key yields the invalid value, a field access on an invalid receiver stays
invalid, and printing an invalid value emits the literal `<no value>`. -/

mutual

/-- Printing of a value by `fmt.Fprint` as used when a template action is
written out (composite-value formatting is approximated; no claim depends on
it). -/
def printGo : Value → String
  | .vNull => "<nil>"
  | .vBool b => if b then "true" else "false"
  | .vInt n => toString n
  | .vStr s => s
  | .vList xs => "[" ++ printGoList xs ++ "]"
  | .vMap m => "map[" ++ printGoMap m ++ "]"

/-- Space-separated printing of list elements. -/
def printGoList : List Value → String
  | [] => ""
  | [x] => printGo x
  | x :: rest => printGo x ++ " " ++ printGoList rest

/-- Space-separated `key:value` printing of map entries. -/
def printGoMap : List (String × Value) → String
  | [] => ""
  | [(k, v)] => k ++ ":" ++ printGo v
  | (k, v) :: rest => k ++ ":" ++ printGo v ++ " " ++ printGoMap rest

end

/-- Printing of a possibly-invalid value: `text/template` emits the literal
`<no value>` for an invalid (missing) value. -/
def printValue : Option Value → String
  | none => "<no value>"
  | some v => printGo v

/-- One field-access step of `text/template` execution (`none` is the invalid
value): an invalid receiver stays invalid under the default `missingkey`
option; a map receiver indexes the map (a missing key going invalid); a nil
or non-map receiver is an execution error (messages abbreviated). -/
def evalField (v : Option Value) (name : String) : Except String (Option Value) :=
  match v with
  | none => .ok none
  | some (.vMap m) => .ok (assocLookup m name)
  | some .vNull => .error ("nil pointer evaluating interface \x7b\x7d." ++ name)
  | some _ => .error ("can\x27t evaluate field " ++ name ++ " in non-map value")

/-- Field-chain evaluation from a current (possibly invalid) value. -/
def evalPathAux (cur : Option Value) : List String → Except String (Option Value)
  | [] => .ok cur
  | n :: rest =>
    match evalField cur n with
    | .error e => .error e
    | .ok v => evalPathAux v rest

/-- Evaluation of a dotted path `.a.b.c` against the template data tree. -/
def evalPath (root : Value) (path : List String) : Except String (Option Value) :=
  evalPathAux (some root) path

/-- A parsed template: literal text interleaved with field-chain actions. -/
inductive TemplateChunk where
  | lit (s : String)
  | ref (path : List String)

/-- Execution of a parsed template against the data tree
(workflow_builder.go:1643-1648): actions are evaluated and printed in order,
any evaluation error aborting the whole template. -/
def resolveChunks (data : Value) : List TemplateChunk → Except String String
  | [] => .ok ""
  | .lit s :: rest =>
    match resolveChunks data rest with
    | .error e => .error e
    | .ok tail => .ok (s ++ tail)
  | .ref p :: rest =>
    match evalPath data p with
    | .error e => .error ("template execution error: " ++ e)
    | .ok v =>
      match resolveChunks data rest with
      | .error e => .error e
      | .ok tail => .ok (printValue v ++ tail)

/-! ### JSON state store (workflow_builder.go:1540-1615)

The directory of JSON documents is modelled as a map from filename to parsed
document, and the `encoding/json` round trip of the modelled
WorkflowInstance fields as `encodeInstance` / `decodeInstance`. -/

/-- Serialization of a StepExecution to its JSON document (field names from
the struct tags at workflow_builder.go:1490-1499; `end_time` is modelled by
its presence flag). -/
def encodeStep (se : StepExecution) : Value :=
  .vMap [("name", .vStr se.Name), ("status", .vStr se.Status),
    ("retries", .vInt (se.Retries : Int)), ("error", .vStr se.Error),
    ("end_time_set", .vBool se.EndTimeSet)]

/-- Reading a JSON string field. -/
def asStr : Option Value → Option String
  | some (.vStr s) => some s
  | _ => none

/-- Reading a non-negative JSON integer field. -/
def asNat : Option Value → Option Nat
  | some (.vInt n) => if 0 ≤ n then some n.toNat else none
  | _ => none

/-- Reading a JSON boolean field. -/
def asBool : Option Value → Option Bool
  | some (.vBool b) => some b
  | _ => none

/-- Deserialization of a StepExecution from its JSON document. -/
def decodeStep (v : Value) : Option StepExecution :=
  match v with
  | .vMap m => do
    let name ← asStr (assocLookup m "name")
    let status ← asStr (assocLookup m "status")
    let retries ← asNat (assocLookup m "retries")
    let err ← asStr (assocLookup m "error")
    let ets ← asBool (assocLookup m "end_time_set")
    some ⟨name, status, retries, err, ets⟩
  | _ => none

/-- Deserialization of the step history array. -/
def decodeStepList : List Value → Option (List StepExecution)
  | [] => some []
  | v :: rest => do
    let se ← decodeStep v
    let tail ← decodeStepList rest
    some (se :: tail)

/-- Serialization of a WorkflowInstance to its JSON document (field names from
the struct tags at workflow_builder.go:1477-1487). -/
def encodeInstance (inst : WorkflowInstance) : Value :=
  .vMap [("id", .vStr inst.ID), ("workflow_name", .vStr inst.WorkflowName),
    ("status", .vStr inst.Status), ("error", .vStr inst.Error),
    ("end_time_set", .vBool inst.EndTimeSet),
    ("steps", .vList (inst.Steps.map encodeStep))]

/-- Deserialization of a WorkflowInstance from its JSON document. -/
def decodeInstance (v : Value) : Option WorkflowInstance :=
  match v with
  | .vMap m => do
    let id ← asStr (assocLookup m "id")
    let wn ← asStr (assocLookup m "workflow_name")
    let status ← asStr (assocLookup m "status")
    let err ← asStr (assocLookup m "error")
    let ets ← asBool (assocLookup m "end_time_set")
    match assocLookup m "steps" with
    | some (.vList xs) => do
      let steps ← decodeStepList xs
      some ⟨id, wn, status, err, ets, steps⟩
    | _ => none
  | _ => none

/-- The filename the store uses for an instance
(workflow_builder.go:1557,1573): `fmt.Sprintf("%s.json", id)`. -/
def instanceFilename (id : String) : String := id ++ ".json"

/-- JSONPersistence (workflow_builder.go:1540-1543): the data directory as a
map from filename to stored JSON document. -/
structure JSONPersistence where
  files : String → Option Value

/-- JSONPersistence.SaveWorkflowInstance (workflow_builder.go:1556-1569):
marshal the instance and write it to `<id>.json` (file-system write errors
are not modelled; marshalling the modelled fields cannot fail). -/
def SaveWorkflowInstance (j : JSONPersistence) (inst : WorkflowInstance) : JSONPersistence :=
  ⟨fun f => if f = instanceFilename inst.ID then some (encodeInstance inst) else j.files f⟩

/-- JSONPersistence.GetWorkflowInstance (workflow_builder.go:1572-1589): read
`<id>.json`, a missing file giving the not-found error, then unmarshal. -/
def GetWorkflowInstance (j : JSONPersistence) (instanceID : String) :
    Except String WorkflowInstance :=
  match j.files (instanceFilename instanceID) with
  | none => .error ("instance not found: " ++ instanceID)
  | some doc =>
    match decodeInstance doc with
    | none => .error "failed to unmarshal instance"
    | some inst => .ok inst

/-! ### Trigger dispatch helper (triggers/helper.go:14-35)

Go maps are reference values; to state the aliasing of the event payload and
the variables map the heap of maps is explicit: a map reference is a `Nat`
index into the heap. -/

/-- The heap of `map[string]interface\x7b\x7d` objects, by reference. -/
structure Heap where
  data : Nat → List (String × Value)

/-- Overwrite the map object behind a reference. -/
def Heap.update (h : Heap) (ref : Nat) (m : List (String × Value)) : Heap :=
  ⟨fun r => if r = ref then m else h.data r⟩

/-- Event (workflow_builder.go:1502-1507) with its payload and metadata maps
held by reference.  The helper leaves `Metadata` nil (`none`). -/
structure Event where
  EventType : String
  PayloadRef : Nat
  MetadataRef : Option Nat
  Timestamp : Int

/-- EventContext (workflow_builder.go:1510-1513) with the variables map held
by reference. -/
structure EventContext where
  Event : Event
  VariablesRef : Nat

/-- The event context built by the shared trigger helper
(triggers/helper.go:21-28): `Payload: contextData` and `Variables:
contextData` receive the same map reference, and `Metadata` is left nil. -/
def mkEventContext (eventType : String) (contextDataRef : Nat) (ts : Int) : EventContext :=
  ⟨⟨eventType, contextDataRef, none, ts⟩, contextDataRef⟩

/-- The context update of Engine.executeStep (marketplace.go:1252-1254):
`eventCtx.Variables[step.Name] = output` when the output is non-nil. -/
def setStepOutput (h : Heap) (ctx : EventContext) (stepName : String) (output : Value) : Heap :=
  h.update ctx.VariablesRef (assocSet (h.data ctx.VariablesRef) stepName output)

/-- Reading a key of the event payload map through the context. -/
def payloadLookup (h : Heap) (ctx : EventContext) (key : String) : Option Value :=
  assocLookup (h.data ctx.Event.PayloadRef) key

/-- The template data tree built by resolveTemplate
(workflow_builder.go:1624-1632): `event.type/payload/metadata/timestamp` and
`variables`, reading the payload, metadata and variables maps from the
heap. -/
def buildTemplateData (h : Heap) (ctx : EventContext) : Value :=
  .vMap [("event", .vMap [("type", .vStr ctx.Event.EventType),
      ("payload", .vMap (h.data ctx.Event.PayloadRef)),
      ("metadata", .vMap (match ctx.Event.MetadataRef with
        | some r => h.data r
        | none => [])),
      ("timestamp", .vInt ctx.Event.Timestamp)]),
    ("variables", .vMap (h.data ctx.VariablesRef))]

/-! ## Theorems -/

/-- Int64 arithmetic that stays within range is unchanged by the
wrap-around. -/
theorem wrap64_eq_of_nonneg {x : Int} (h0 : 0 ≤ x) (h1 : x < 2 ^ 63) : wrap64 x = x := by
  unfold wrap64
  have h2 : 0 ≤ x + 2 ^ 63 := by omega
  have h3 : x + 2 ^ 63 < 2 ^ 64 := by omega
  rw [Int.emod_eq_of_lt h2 h3]
  omega

/-- Under the default `missingkey` option, an invalid value stays invalid
under any further field accesses. -/
theorem evalPathAux_invalid : ∀ rest : List String, evalPathAux none rest = .ok none
  | [] => rfl
  | _ :: rest => evalPathAux_invalid rest

/-- Looking up the key just assigned finds the assigned value. -/
theorem assocLookup_assocSet_self : ∀ (m : List (String × Value)) (k : String) (v : Value),
    assocLookup (assocSet m k v) k = some v := by
  intro m k v
  induction m with
  | nil => simp [assocSet, assocLookup]
  | cons hd tl ih =>
    obtain ⟨k', w⟩ := hd
    by_cases hk : k' = k
    · simp [assocSet, assocLookup, hk]
    · simp [assocSet, assocLookup, hk, ih]

/-- Unfolding of one retry-loop iteration whose attempt succeeds. -/
theorem retryAux_succ_none (f : Nat → Option String) (attempt fuel : Nat)
    (cur : Nat × Option String) (hf : f attempt = none) :
    retryAux f attempt (fuel + 1) cur = ⟨attempt, none, [attempt]⟩ := by
  simp only [retryAux, hf]

/-- Unfolding of one retry-loop iteration whose attempt fails. -/
theorem retryAux_succ_some (f : Nat → Option String) (attempt fuel : Nat)
    (cur : Nat × Option String) (e : String) (hf : f attempt = some e) :
    retryAux f attempt (fuel + 1) cur =
      ⟨(retryAux f (attempt + 1) fuel (attempt, some e)).retries,
        (retryAux f (attempt + 1) fuel (attempt, some e)).err,
        attempt :: (retryAux f (attempt + 1) fuel (attempt, some e)).attempts⟩ := by
  simp only [retryAux, hf]

/-- The retry loop makes at most `fuel` attempts. -/
theorem retryAux_attempts_length (f : Nat → Option String) :
    ∀ (fuel attempt : Nat) (cur : Nat × Option String),
      (retryAux f attempt fuel cur).attempts.length ≤ fuel := by
  intro fuel
  induction fuel with
  | zero => intro attempt cur; simp [retryAux]
  | succ n ih =>
    intro attempt cur
    cases hf : f attempt with
    | none => simp [retryAux, hf]
    | some e =>
      have := ih (attempt + 1) (attempt, some e)
      simp only [retryAux, hf, List.length_cons]
      omega

/-- When the first successful attempt is `j`, the retry loop stops there:
the retries field is `j`, the error is cleared, and exactly the attempts
`attempt, …, j` were made. -/
theorem retryAux_first_success (f : Nat → Option String) :
    ∀ (fuel attempt : Nat) (cur : Nat × Option String) (j : Nat),
      attempt ≤ j → j < attempt + fuel → f j = none →
      (∀ b, attempt ≤ b → b < j → (f b).isSome) →
      retryAux f attempt fuel cur = ⟨j, none, List.range' attempt (j - attempt + 1)⟩ := by
  intro fuel
  induction fuel with
  | zero => intro attempt cur j h1 h2 h3 h4; omega
  | succ n ih =>
    intro attempt cur j h1 h2 h3 h4
    cases hf : f attempt with
    | none =>
      have hja : j = attempt := by
        by_contra hne
        have hlt : attempt < j := by omega
        have hs := h4 attempt (le_refl _) hlt
        rw [hf] at hs
        simp at hs
      rw [retryAux_succ_none f attempt n cur hf, hja]
      simp
    | some e =>
      have hlt : attempt < j := by
        by_contra hne
        have hj : j = attempt := by omega
        rw [hj, hf] at h3
        cases h3
      have heq := ih (attempt + 1) (attempt, some e) j (by omega) (by omega) h3
        (fun b hb1 hb2 => h4 b (by omega) hb2)
      rw [retryAux_succ_some f attempt n cur e hf, heq]
      rw [show j - attempt + 1 = (j - (attempt + 1) + 1) + 1 by omega,
        show List.range' attempt (j - (attempt + 1) + 1 + 1) =
          attempt :: List.range' (attempt + 1) (j - (attempt + 1) + 1) by rw [List.range'_succ]]

/-- When every attempt fails, the retry loop exhausts the fuel: the retries
field is the last attempt index, the error is the last attempt's error, and
every attempt was made. -/
theorem retryAux_exhaust (f : Nat → Option String) :
    ∀ (fuel attempt : Nat) (cur : Nat × Option String),
      0 < fuel → (∀ b, attempt ≤ b → b < attempt + fuel → (f b).isSome) →
      ∃ e, f (attempt + fuel - 1) = some e ∧
        retryAux f attempt fuel cur = ⟨attempt + fuel - 1, some e, List.range' attempt fuel⟩ := by
  intro fuel
  induction fuel with
  | zero => intro attempt cur h; omega
  | succ n ih =>
    intro attempt cur hpos hall
    have hsome : (f attempt).isSome := hall attempt (le_refl _) (by omega)
    cases hf : f attempt with
    | none => rw [hf] at hsome; simp at hsome
    | some e =>
      cases n with
      | zero =>
        refine ⟨e, by simpa using hf, ?_⟩
        rw [retryAux_succ_some f attempt 0 cur e hf]
        simp [retryAux]
      | succ m =>
        obtain ⟨e2, he2, heq⟩ := ih (attempt + 1) (attempt, some e) (by omega)
          (fun b hb1 hb2 => hall b (by omega) (by omega))
        have hidx : attempt + 1 + (m + 1) - 1 = attempt + (m + 1 + 1) - 1 := by omega
        rw [hidx] at he2
        refine ⟨e2, he2, ?_⟩
        rw [retryAux_succ_some f attempt (m + 1) cur e hf, heq, hidx,
          show List.range' attempt (m + 1 + 1) = attempt :: List.range' (attempt + 1) (m + 1) by
            rw [List.range'_succ]]

/-- Every step allows at least one attempt. -/
theorem maxRetriesOf_pos (step : WorkflowStep) : 1 ≤ maxRetriesOf step := by
  unfold maxRetriesOf
  cases step.Retry with
  | none => simp
  | some r =>
    by_cases h : r.Max > 0
    · simp [h]; omega
    · simp [h]

/-- Every `executeStep` invocation the loop logs belongs to a recorded step:
its step index is at least the starting index and below the starting index
plus the number of recorded step executions. -/
theorem execSteps_log_bounds (resolveIf : Nat → Except String String)
    (stepResult : Nat → Nat → Option String) :
    ∀ (steps : List WorkflowStep) (i : Nat) (p : Nat × Nat),
      p ∈ (execSteps resolveIf stepResult steps i).log →
      i ≤ p.1 ∧ p.1 < i + (execSteps resolveIf stepResult steps i).steps.length := by
  intro steps
  induction steps with
  | nil => intro i p hp; simp [execSteps] at hp
  | cons step rest ih =>
    intro i p hp
    cases hg : stepGate resolveIf step i with
    | condFailed e =>
      simp only [execSteps, hg] at hp ⊢
      have := ih (i + 1) p hp
      simp only [List.length_cons]
      omega
    | skip =>
      simp only [execSteps, hg] at hp ⊢
      have := ih (i + 1) p hp
      simp only [List.length_cons]
      omega
    | run =>
      cases he : (retryLoop (stepResult i) (maxRetriesOf step)).err with
      | some e =>
        simp only [execSteps, hg, he] at hp ⊢
        simp only [List.mem_map] at hp
        obtain ⟨a, ha, rfl⟩ := hp
        simp only [List.length_singleton]
        omega
      | none =>
        simp only [execSteps, hg, he] at hp ⊢
        simp only [List.mem_append, List.mem_map] at hp
        simp only [List.length_cons]
        rcases hp with ⟨a, ha, rfl⟩ | hp
        · omega
        · have := ih (i + 1) p hp
          omega

/-- Characterization of the recorded statuses when every condition resolves
without error: on success every recorded step is `completed` or `skipped`;
on failure the last recorded step is the `failed` one carrying the
propagated name and error. -/
theorem execSteps_statuses (resolveIf : Nat → Except String String)
    (stepResult : Nat → Nat → Option String) :
    ∀ (steps : List WorkflowStep) (i : Nat), condsOk resolveIf steps i = true →
      ((execSteps resolveIf stepResult steps i).outcome = .success →
        ∀ se ∈ (execSteps resolveIf stepResult steps i).steps,
          se.Status = "completed" ∨ se.Status = "skipped") ∧
      (∀ n e, (execSteps resolveIf stepResult steps i).outcome = .failure n e →
        ∃ se, (execSteps resolveIf stepResult steps i).steps.getLast? = some se ∧
          se.Status = "failed" ∧ se.Name = n ∧ se.Error = e) := by
  intro steps
  induction steps with
  | nil =>
    intro i _
    constructor
    · intro _ se hse; simp [execSteps] at hse
    · intro n e hout; simp [execSteps] at hout
  | cons step rest ih =>
    intro i hc
    cases hg : stepGate resolveIf step i with
    | condFailed e => simp [condsOk, hg] at hc
    | skip =>
      simp only [condsOk, hg, Bool.true_and] at hc
      obtain ⟨ihs, ihf⟩ := ih (i + 1) hc
      constructor
      · intro hout se hse
        simp only [execSteps, hg] at hout hse
        rcases List.mem_cons.mp hse with rfl | hse
        · right; rfl
        · exact ihs hout se hse
      · intro n e hout
        simp only [execSteps, hg] at hout ⊢
        obtain ⟨se, h1, h2⟩ := ihf n e hout
        refine ⟨se, ?_, h2⟩
        cases hl : (execSteps resolveIf stepResult rest (i + 1)).steps with
        | nil => rw [hl] at h1; cases h1
        | cons b l =>
          rw [hl] at h1
          rw [List.getLast?_cons_cons]
          exact h1
    | run =>
      simp only [condsOk, hg, Bool.true_and] at hc
      cases he : (retryLoop (stepResult i) (maxRetriesOf step)).err with
      | some e0 =>
        constructor
        · intro hout; simp [execSteps, hg, he] at hout
        · intro n e hout
          simp only [execSteps, hg, he] at hout ⊢
          simp only [ExecOutcome.failure.injEq] at hout
          obtain ⟨rfl, rfl⟩ := hout
          exact ⟨⟨step.Name, "failed", (retryLoop (stepResult i) (maxRetriesOf step)).retries,
            e0, true⟩, rfl, rfl, rfl, rfl⟩
      | none =>
        obtain ⟨ihs, ihf⟩ := ih (i + 1) hc
        constructor
        · intro hout se hse
          simp only [execSteps, hg, he] at hout hse
          rcases List.mem_cons.mp hse with rfl | hse
          · left; rfl
          · exact ihs hout se hse
        · intro n e hout
          simp only [execSteps, hg, he] at hout ⊢
          obtain ⟨se, h1, h2⟩ := ihf n e hout
          refine ⟨se, ?_, h2⟩
          cases hl : (execSteps resolveIf stepResult rest (i + 1)).steps with
          | nil => rw [hl] at h1; cases h1
          | cons b l =>
            rw [hl] at h1
            rw [List.getLast?_cons_cons]
            exact h1

/-- A run through non-fatal steps records exactly one execution per step. -/
theorem execSteps_length_of_noFatal (resolveIf : Nat → Except String String)
    (stepResult : Nat → Nat → Option String) :
    ∀ (steps : List WorkflowStep) (i : Nat), noFatal resolveIf stepResult steps i = true →
      (execSteps resolveIf stepResult steps i).steps.length = steps.length := by
  intro steps
  induction steps with
  | nil => intro i _; rfl
  | cons step rest ih =>
    intro i h
    simp only [noFatal, Bool.and_eq_true, Bool.not_eq_true'] at h
    obtain ⟨h1, h2⟩ := h
    cases hg : stepGate resolveIf step i with
    | condFailed e => simp [execSteps, hg, ih (i + 1) h2]
    | skip => simp [execSteps, hg, ih (i + 1) h2]
    | run =>
      rw [stepFatal, hg] at h1
      cases he : (retryLoop (stepResult i) (maxRetriesOf step)).err with
      | some e => rw [he] at h1; simp at h1
      | none => simp [execSteps, hg, he, ih (i + 1) h2]

/-- Processing a list that starts with non-fatal steps concatenates the
non-fatal prefix's records with those of the remainder, the remainder
deciding the outcome. -/
theorem execSteps_append_noFatal (resolveIf : Nat → Except String String)
    (stepResult : Nat → Nat → Option String) :
    ∀ (pre rest : List WorkflowStep) (i : Nat), noFatal resolveIf stepResult pre i = true →
      execSteps resolveIf stepResult (pre ++ rest) i =
        ⟨(execSteps resolveIf stepResult pre i).steps ++
            (execSteps resolveIf stepResult rest (i + pre.length)).steps,
          (execSteps resolveIf stepResult pre i).log ++
            (execSteps resolveIf stepResult rest (i + pre.length)).log,
          (execSteps resolveIf stepResult rest (i + pre.length)).outcome⟩ := by
  intro pre
  induction pre with
  | nil => intro rest i _; simp [execSteps]
  | cons step pre2 ih =>
    intro rest i h
    simp only [noFatal, Bool.and_eq_true, Bool.not_eq_true'] at h
    obtain ⟨h1, h2⟩ := h
    have harith : i + 1 + pre2.length = i + (pre2.length + 1) := by omega
    cases hg : stepGate resolveIf step i with
    | condFailed e =>
      simp [execSteps, hg, ih rest (i + 1) h2, harith]
    | skip =>
      simp [execSteps, hg, ih rest (i + 1) h2, harith]
    | run =>
      rw [stepFatal, hg] at h1
      cases he : (retryLoop (stepResult i) (maxRetriesOf step)).err with
      | some e => rw [he] at h1; simp at h1
      | none =>
        simp [execSteps, hg, he, ih rest (i + 1) h2, harith]

/-- C1 (amended) — provided every step's `if` condition resolves without
error, the instance's final status is `completed` iff every recorded step
execution is `completed` or `skipped`; the final status is always
`completed` or `failed`; on failure the last recorded step is the failed
one, whose error propagates to the instance as `Step <name> failed: <err>`;
and `executeStep` is never invoked at a step index beyond the recorded
steps, so no step is attempted after the failure. -/
theorem c1_engine_final_status (instanceID : String) (w : Workflow)
    (resolveIf : Nat → Except String String) (stepResult : Nat → Nat → Option String)
    (hc : condsOk resolveIf w.Workflow 0 = true) :
    ((ExecuteWorkflow instanceID w resolveIf stepResult).1.Status = "completed" ↔
      ∀ se ∈ (ExecuteWorkflow instanceID w resolveIf stepResult).1.Steps,
        se.Status = "completed" ∨ se.Status = "skipped") ∧
    ((ExecuteWorkflow instanceID w resolveIf stepResult).1.Status = "completed" ∨
      (ExecuteWorkflow instanceID w resolveIf stepResult).1.Status = "failed") ∧
    ((ExecuteWorkflow instanceID w resolveIf stepResult).1.Status = "failed" →
      ∃ se, (ExecuteWorkflow instanceID w resolveIf stepResult).1.Steps.getLast? = some se ∧
        se.Status = "failed" ∧
        (ExecuteWorkflow instanceID w resolveIf stepResult).1.Error =
          "Step \x27" ++ se.Name ++ "\x27 failed: " ++ se.Error) ∧
    (∀ p ∈ (ExecuteWorkflow instanceID w resolveIf stepResult).2.1,
      p.1 < (ExecuteWorkflow instanceID w resolveIf stepResult).1.Steps.length) := by
  obtain ⟨hsucc, hfail⟩ := execSteps_statuses resolveIf stepResult w.Workflow 0 hc
  have hlog := execSteps_log_bounds resolveIf stepResult w.Workflow 0
  cases hout : (execSteps resolveIf stepResult w.Workflow 0).outcome with
  | success =>
    simp only [ExecuteWorkflow, hout]
    refine ⟨⟨fun _ => hsucc hout, fun _ => by trivial⟩, by left; trivial,
      fun habs => by
        first
        | exact habs.elim
        | exact absurd habs (by decide),
      fun p hp => ?_⟩
    have h2 := (hlog p hp).2
    simpa using h2
  | failure n e =>
    simp only [ExecuteWorkflow, hout]
    obtain ⟨se, hlast, hst, hnm, herr⟩ := hfail n e hout
    have hlast2 : se ∈ (execSteps resolveIf stepResult w.Workflow 0).steps.getLast? := by
      rw [Option.mem_def]
      exact hlast
    obtain ⟨hne, hgl⟩ := List.mem_getLast?_eq_getLast hlast2
    have hmem : se ∈ (execSteps resolveIf stepResult w.Workflow 0).steps :=
      hgl ▸ List.getLast_mem hne
    refine ⟨⟨fun habs => by
        first
        | exact habs.elim
        | exact absurd habs (by decide),
      fun hall => ?_⟩, by right; trivial,
      fun _ => ⟨se, hlast, hst, by rw [hnm, herr]⟩, fun p hp => ?_⟩
    · rcases hall se hmem with h | h
      · rw [hst] at h; exact absurd h (by decide)
      · rw [hst] at h; exact absurd h (by decide)
    · have h2 := (hlog p hp).2
      simpa using h2

/-- Witness for C1: a one-step workflow whose step succeeds on the first
attempt ends `completed` (or `failed`), by the theorem. -/
theorem c1_engine_final_status_witness :
    (ExecuteWorkflow "inst-1" ⟨"wf", "user.created", [⟨"s1", "log.info", "", [], none⟩]⟩
        (fun _ => Except.ok "true") (fun _ _ => none)).1.Status = "completed" ∨
      (ExecuteWorkflow "inst-1" ⟨"wf", "user.created", [⟨"s1", "log.info", "", [], none⟩]⟩
        (fun _ => Except.ok "true") (fun _ _ => none)).1.Status = "failed" :=
  (c1_engine_final_status "inst-1" ⟨"wf", "user.created", [⟨"s1", "log.info", "", [], none⟩]⟩
    (fun _ => Except.ok "true") (fun _ _ => none) (by rfl)).2.1

/-- C1 counterexample — a workflow whose only step has the unparsable
condition template `\x7b\x7b` records that step `failed` (condition evaluation
failed) yet the instance finishes `completed`: the claimed iff between
`completed` and all-steps-completed-or-skipped is false on the code. -/
theorem c1_condition_error_counterexample :
    (ExecuteWorkflow "inst-1" ⟨"wf", "user.created", [⟨"s1", "log.info", "\x7b\x7b", [], none⟩]⟩
        (fun _ => Except.error "template parse error: unclosed action")
        (fun _ _ => none)).1.Status = "completed" ∧
      (ExecuteWorkflow "inst-1" ⟨"wf", "user.created", [⟨"s1", "log.info", "\x7b\x7b", [], none⟩]⟩
        (fun _ => Except.error "template parse error: unclosed action")
        (fun _ _ => none)).1.Steps.map StepExecution.Status = ["failed"] :=
  ⟨rfl, rfl⟩

/-- C2 — the engine makes at most `retry.max` executeStep attempts per step
and stops at the first success; a step without a retry policy allows exactly
one attempt; and a step with `retry.max = K` whose action fails the first
K−1 attempts and succeeds on attempt K is recorded `completed` with
`retries = K−1`. -/
theorem c2_retry_attempt_counting (f : Nat → Option String) (K : Nat) (hK : 0 < K) :
    (retryLoop f K).attempts.length ≤ K ∧
    (∀ j, j < K → f j = none → (∀ b, b < j → (f b).isSome) →
      retryLoop f K = ⟨j, none, List.range (j + 1)⟩) ∧
    (∀ step : WorkflowStep, step.Retry = none → maxRetriesOf step = 1) ∧
    (retryLoop f 1).attempts = [0] ∧
    (∀ (instanceID wName wEvent sName sAction b : String)
        (resolveIf : Nat → Except String String),
      (∀ a, a < K - 1 → (f a).isSome) → f (K - 1) = none →
      (ExecuteWorkflow instanceID ⟨wName, wEvent, [⟨sName, sAction, "", [], some ⟨(K : Int), b⟩⟩]⟩
          resolveIf (fun _ => f)).1.Status = "completed" ∧
      (ExecuteWorkflow instanceID ⟨wName, wEvent, [⟨sName, sAction, "", [], some ⟨(K : Int), b⟩⟩]⟩
          resolveIf (fun _ => f)).1.Steps = [⟨sName, "completed", K - 1, "", true⟩]) := by
  refine ⟨retryAux_attempts_length f K 0 (0, none), ?_, ?_, ?_, ?_⟩
  · intro j hj hsucc hfails
    have h := retryAux_first_success f K 0 (0, none) j (Nat.zero_le j) (by omega) hsucc
      (fun b hb1 hb2 => hfails b hb2)
    unfold retryLoop
    rw [h]
    simp [List.range_eq_range']
  · intro step h
    simp [maxRetriesOf, h]
  · cases hf : f 0 with
    | none =>
      unfold retryLoop
      rw [retryAux_succ_none f 0 0 (0, none) hf]
    | some e =>
      unfold retryLoop
      rw [retryAux_succ_some f 0 0 (0, none) e hf]
      simp [retryAux]
  · intro instanceID wName wEvent sName sAction b resolveIf hfails hsucc
    have hKi : (0 : Int) < (K : Int) := by exact_mod_cast hK
    have hmax : maxRetriesOf ⟨sName, sAction, "", [], some ⟨(K : Int), b⟩⟩ = K := by
      simp [maxRetriesOf, hKi]
    have hgate : stepGate resolveIf ⟨sName, sAction, "", [], some ⟨(K : Int), b⟩⟩ 0 = .run := rfl
    have hrl : retryLoop f K = ⟨K - 1, none, List.range' 0 K⟩ := by
      unfold retryLoop
      have h := retryAux_first_success f K 0 (0, none) (K - 1) (Nat.zero_le _) (by omega) hsucc
        (fun a ha1 ha2 => hfails a ha2)
      rw [h, show K - 1 - 0 + 1 = K by omega]
    have hexec : execSteps resolveIf (fun _ => f)
        [⟨sName, sAction, "", [], some ⟨(K : Int), b⟩⟩] 0 =
        ⟨[⟨sName, "completed", K - 1, "", true⟩],
          (List.range' 0 K).map (fun a => (0, a)), .success⟩ := by
      simp [execSteps, hgate, hmax, hrl]
    exact ⟨by simp only [ExecuteWorkflow, hexec], by simp only [ExecuteWorkflow, hexec]⟩

/-- Witness for C2 at K = 3 with an action failing attempts 0 and 1 and
succeeding on attempt 2. -/
theorem c2_retry_attempt_counting_witness :
    (retryLoop (fun a => if a < 2 then some "boom" else none) 3).attempts.length ≤ 3 ∧
      retryLoop (fun a => if a < 2 then some "boom" else none) 3 =
        ⟨2, none, List.range 3⟩ :=
  ⟨(c2_retry_attempt_counting (fun a => if a < 2 then some "boom" else none) 3 (by decide)).1,
    (c2_retry_attempt_counting (fun a => if a < 2 then some "boom" else none) 3 (by decide)).2.1
      2 (by decide) (by decide) (by decide)⟩

/-- C5 — a resolved condition string is truthy iff it is non-empty and not
one of false/0/no (true/1/yes being explicitly truthy); a step whose
condition is falsy is recorded as a `skipped` StepExecution, its action is
never invoked (no executeStep call is logged at its index), and the
remaining steps still run. -/
theorem c5_condition_gating (resolveIf : Nat → Except String String)
    (stepResult : Nat → Nat → Option String) (step : WorkflowStep)
    (rest : List WorkflowStep) (i : Nat) (s : String)
    (hIf : step.If ≠ "") (hres : resolveIf i = .ok s) (hfalsy : condTruthy s = false) :
    (∀ t : String, condTruthy t = true ↔ (t ≠ "" ∧ t ≠ "false" ∧ t ≠ "0" ∧ t ≠ "no")) ∧
    (condTruthy "true" = true ∧ condTruthy "1" = true ∧ condTruthy "yes" = true) ∧
    execSteps resolveIf stepResult (step :: rest) i =
      ⟨⟨step.Name, "skipped", 0, "", true⟩ :: (execSteps resolveIf stepResult rest (i + 1)).steps,
        (execSteps resolveIf stepResult rest (i + 1)).log,
        (execSteps resolveIf stepResult rest (i + 1)).outcome⟩ ∧
    (∀ a : Nat, (i, a) ∉ (execSteps resolveIf stepResult (step :: rest) i).log) := by
  have hg : stepGate resolveIf step i = .skip := by
    simp [stepGate, hIf, evaluateCondition, hres, hfalsy]
  have hexec : execSteps resolveIf stepResult (step :: rest) i =
      ⟨⟨step.Name, "skipped", 0, "", true⟩ :: (execSteps resolveIf stepResult rest (i + 1)).steps,
        (execSteps resolveIf stepResult rest (i + 1)).log,
        (execSteps resolveIf stepResult rest (i + 1)).outcome⟩ := by
    simp only [execSteps, hg]
  refine ⟨?_, ⟨rfl, rfl, rfl⟩, hexec, ?_⟩
  · intro t
    unfold condTruthy
    split_ifs with h1 h2
    · rcases h1 with h | h | h <;> subst h <;> decide
    · rcases h2 with h | h | h | h <;> subst h <;> decide
    · push_neg at h1 h2
      simp only [bne_iff_ne, ne_eq]
      exact ⟨fun h => ⟨h, h2.1, h2.2.1, h2.2.2.1⟩, fun h => h.1⟩
  · intro a hmem
    rw [hexec] at hmem
    have hb := (execSteps_log_bounds resolveIf stepResult rest (i + 1) (i, a) hmem).1
    simp at hb

/-- Witness for C5: a step whose condition resolves to `false` is skipped and
the loop proceeds to the rest. -/
theorem c5_condition_gating_witness :
    execSteps (fun _ => Except.ok "false") (fun _ _ => none)
        [⟨"s2", "log.info", "cond", [], none⟩] 0 =
      ⟨⟨"s2", "skipped", 0, "", true⟩ ::
          (execSteps (fun _ => Except.ok "false") (fun _ _ => none) [] 1).steps,
        (execSteps (fun _ => Except.ok "false") (fun _ _ => none) [] 1).log,
        (execSteps (fun _ => Except.ok "false") (fun _ _ => none) [] 1).outcome⟩ :=
  (c5_condition_gating (fun _ => Except.ok "false") (fun _ _ => none)
    ⟨"s2", "log.info", "cond", [], none⟩ [] 0 "false" (by decide) rfl (by decide)).2.2.1

/-- C6 — when a reached step's action fails on every allowed attempt, the
step is recorded `failed`, the instance ends `failed` with error exactly
`Step <name> failed: <err>` and its end time set, the failed step is the
last recorded one, no later step is recorded, every logged executeStep call
is at or before the failing index, and the call returns the corresponding
error. -/
theorem c6_retry_exhaustion_failure (instanceID : String) (w : Workflow)
    (resolveIf : Nat → Except String String) (stepResult : Nat → Nat → Option String)
    (pre : List WorkflowStep) (step : WorkflowStep) (post : List WorkflowStep)
    (hw : w.Workflow = pre ++ step :: post)
    (hpre : noFatal resolveIf stepResult pre 0 = true)
    (hgate : stepGate resolveIf step pre.length = .run)
    (hfail : ∀ a, a < maxRetriesOf step → (stepResult pre.length a).isSome) :
    ∃ e, stepResult pre.length (maxRetriesOf step - 1) = some e ∧
      (ExecuteWorkflow instanceID w resolveIf stepResult).1.Status = "failed" ∧
      (ExecuteWorkflow instanceID w resolveIf stepResult).1.Error =
        "Step \x27" ++ step.Name ++ "\x27 failed: " ++ e ∧
      (ExecuteWorkflow instanceID w resolveIf stepResult).1.EndTimeSet = true ∧
      (ExecuteWorkflow instanceID w resolveIf stepResult).1.Steps.getLast? =
        some ⟨step.Name, "failed", maxRetriesOf step - 1, e, true⟩ ∧
      (ExecuteWorkflow instanceID w resolveIf stepResult).1.Steps.length = pre.length + 1 ∧
      (∀ p ∈ (ExecuteWorkflow instanceID w resolveIf stepResult).2.1, p.1 ≤ pre.length) ∧
      (ExecuteWorkflow instanceID w resolveIf stepResult).2.2 =
        .error ("workflow failed at step \x27" ++ step.Name ++ "\x27: " ++ e) := by
  have hm1 : 1 ≤ maxRetriesOf step := maxRetriesOf_pos step
  obtain ⟨e, he, hrt⟩ := retryAux_exhaust (stepResult pre.length) (maxRetriesOf step) 0 (0, none)
    (by omega) (fun a ha1 ha2 => hfail a (by omega))
  rw [Nat.zero_add] at he hrt
  have hrl : retryLoop (stepResult pre.length) (maxRetriesOf step) =
      ⟨maxRetriesOf step - 1, some e, List.range' 0 (maxRetriesOf step)⟩ := hrt
  have hmid : execSteps resolveIf stepResult (step :: post) pre.length =
      ⟨[⟨step.Name, "failed", maxRetriesOf step - 1, e, true⟩],
        (List.range' 0 (maxRetriesOf step)).map (fun a => (pre.length, a)),
        .failure step.Name e⟩ := by
    simp only [execSteps, hgate, hrl]
  have happ := execSteps_append_noFatal resolveIf stepResult pre (step :: post) 0 hpre
  rw [Nat.zero_add] at happ
  have hlen := execSteps_length_of_noFatal resolveIf stepResult pre 0 hpre
  have hlogpre := execSteps_log_bounds resolveIf stepResult pre 0
  have hfull : execSteps resolveIf stepResult (pre ++ step :: post) 0 =
      ⟨(execSteps resolveIf stepResult pre 0).steps ++
          [⟨step.Name, "failed", maxRetriesOf step - 1, e, true⟩],
        (execSteps resolveIf stepResult pre 0).log ++
          (List.range' 0 (maxRetriesOf step)).map (fun a => (pre.length, a)),
        .failure step.Name e⟩ := by
    rw [happ, hmid]
  refine ⟨e, he, ?_⟩
  simp only [ExecuteWorkflow, hw, hfull]
  refine ⟨by trivial, by trivial, by trivial, List.getLast?_concat _, by simp [hlen], ?_,
    by trivial⟩
  intro p hp
  rcases List.mem_append.mp hp with hp | hp
  · have h2 := (hlogpre p hp).2
    rw [hlen] at h2
    omega
  · obtain ⟨a, _, rfl⟩ := List.mem_map.mp hp
    exact le_refl _

/-- Witness for C6: a two-step workflow whose first step retries twice and
always fails ends `failed` with the step's error and only one recorded
step. -/
theorem c6_retry_exhaustion_failure_witness :
    (ExecuteWorkflow "inst-1" ⟨"wf", "user.created",
        [⟨"s1", "log.info", "", [], some ⟨2, "linear"⟩⟩, ⟨"s2", "log.info", "", [], none⟩]⟩
        (fun _ => Except.ok "true") (fun _ _ => some "boom")).1.Status = "failed" ∧
      (ExecuteWorkflow "inst-1" ⟨"wf", "user.created",
        [⟨"s1", "log.info", "", [], some ⟨2, "linear"⟩⟩, ⟨"s2", "log.info", "", [], none⟩]⟩
        (fun _ => Except.ok "true") (fun _ _ => some "boom")).1.Error =
        "Step \x27s1\x27 failed: boom" ∧
      (ExecuteWorkflow "inst-1" ⟨"wf", "user.created",
        [⟨"s1", "log.info", "", [], some ⟨2, "linear"⟩⟩, ⟨"s2", "log.info", "", [], none⟩]⟩
        (fun _ => Except.ok "true") (fun _ _ => some "boom")).1.Steps.length = 1 := by
  obtain ⟨e, he, hconc⟩ := c6_retry_exhaustion_failure "inst-1"
    ⟨"wf", "user.created",
      [⟨"s1", "log.info", "", [], some ⟨2, "linear"⟩⟩, ⟨"s2", "log.info", "", [], none⟩]⟩
    (fun _ => Except.ok "true") (fun _ _ => some "boom") []
    ⟨"s1", "log.info", "", [], some ⟨2, "linear"⟩⟩ [⟨"s2", "log.info", "", [], none⟩]
    rfl rfl rfl (fun a ha => rfl)
  have he2 : e = "boom" := by
    simpa using he.symm
  subst he2
  exact ⟨hconc.1, hconc.2.1, by simpa using hconc.2.2.2.2.1⟩

/-- C3 — For every retry policy and 1-indexed attempt number N (within int64
range, so that Go's duration arithmetic does not overflow), the delay
computed by the retry policy engine before attempt N+1 equals base × N for
linear backoff, and base × 2^(N−1) capped at the policy's max delay when one
is set, for exponential backoff. -/
theorem c3_backoff_delay_formula (policy : RetryPolicy) (N nowNanos : Int)
    (hN : 1 ≤ N) (hbase : 0 ≤ policy.RetryDelay) :
    (policy.BackoffType = "linear" → policy.RetryDelay * N < 2 ^ 63 →
      calculateRetryDelay policy N nowNanos = policy.RetryDelay * N) ∧
    (policy.BackoffType = "exponential" → N ≤ 63 →
      policy.RetryDelay * 2 ^ (N - 1).toNat < 2 ^ 63 →
      calculateRetryDelay policy N nowNanos =
        if 0 < policy.MaxDelay then
          min (policy.RetryDelay * 2 ^ (N - 1).toNat) policy.MaxDelay
        else policy.RetryDelay * 2 ^ (N - 1).toNat) := by
  constructor
  · intro hlin hov
    have h0 : 0 ≤ policy.RetryDelay * N := mul_nonneg hbase (by omega)
    simp only [calculateRetryDelay, hlin, if_pos]
    exact wrap64_eq_of_nonneg h0 hov
  · intro hexp hN63 hov
    have hpow64 : (2 : Int) ^ 64 = 18446744073709551616 := by norm_num
    have huint : toUint64 (N - 1) = (N - 1).toNat := by
      unfold toUint64
      rw [Int.emod_eq_of_lt (by omega) (by omega)]
    have hk : (N - 1).toNat < 64 := by omega
    have hk62 : (N - 1).toNat ≤ 62 := by omega
    have hple : (2 : Int) ^ (N - 1).toNat ≤ 2 ^ 62 := pow_le_pow_right₀ (by norm_num) hk62
    have hshl : goShl1 (toUint64 (N - 1)) = 2 ^ (N - 1).toNat := by
      rw [huint]
      unfold goShl1
      rw [if_pos hk]
      exact wrap64_eq_of_nonneg (by positivity) (by nlinarith)
    have hdelay : wrap64 (policy.RetryDelay * goShl1 (toUint64 (N - 1))) =
        policy.RetryDelay * 2 ^ (N - 1).toNat := by
      rw [hshl]
      exact wrap64_eq_of_nonneg (mul_nonneg hbase (by positivity)) hov
    have hne : policy.BackoffType ≠ "linear" := by rw [hexp]; decide
    unfold calculateRetryDelay
    rw [if_neg hne, if_pos hexp]
    simp only [hdelay]
    by_cases hmd : 0 < policy.MaxDelay
    · by_cases hgt : policy.MaxDelay < policy.RetryDelay * 2 ^ (N - 1).toNat
      · rw [if_pos (And.intro hmd hgt), if_pos hmd, min_eq_right (le_of_lt hgt)]
      · rw [if_neg (fun hc => hgt hc.2), if_pos hmd, min_eq_left (not_lt.mp hgt)]
    · rw [if_neg (fun hc => hmd hc.1), if_neg hmd]

/-- Witness for C3 at a concrete policy: base 10ns, exponential, cap 15ns,
attempt 3 gives min(10·2², 15) = 15. -/
theorem c3_backoff_delay_formula_witness :
    calculateRetryDelay ⟨3, 10, "exponential", 15⟩ 3 0 = 15 := by
  have h := (c3_backoff_delay_formula ⟨3, 10, "exponential", 15⟩ 3 0 (by norm_num)
    (by norm_num)).2 rfl (by norm_num) (by decide)
  simpa using h

/-- C4 (amended) — a path reference that reaches a map lacking the referenced
key evaluates to the invalid value through any further segments, and a
template action over such a missing path resolves successfully to the
literal string `<no value>` — which is not the empty string. -/
theorem c4_unknown_path_no_value :
    (∀ (m : List (String × Value)) (k : String) (rest : List String),
      assocLookup m k = none → evalPath (.vMap m) (k :: rest) = .ok none) ∧
    (∀ (data : Value) (p : List String), evalPath data p = .ok none →
      resolveChunks data [.ref p] = .ok "<no value>") ∧
    ("<no value>" : String) ≠ "" := by
  refine ⟨?_, ?_, by decide⟩
  · intro m k rest h
    simp only [evalPath, evalPathAux, evalField, h]
    exact evalPathAux_invalid rest
  · intro data p h
    simp only [resolveChunks, evalPath] at *
    rw [h]
    rfl

/-- Witness for C4 at a concrete data tree missing the key `missing`. -/
theorem c4_unknown_path_no_value_witness :
    evalPath (.vMap [("tier", .vStr "basic")]) ["missing"] = .ok none ∧
    resolveChunks (.vMap [("tier", .vStr "basic")]) [.ref ["missing"]] = .ok "<no value>" := by
  have h1 := c4_unknown_path_no_value.1 [("tier", .vStr "basic")] "missing" [] (by rfl)
  exact ⟨h1, c4_unknown_path_no_value.2.1 _ _ h1⟩

/-- C4 counterexample — the claim says an unknown path resolves to the empty
string; on the data tree built from an event with payload `(tier: basic)`
and empty variables, the reference `.variables.missing` resolves to the
literal `<no value>`, not to `""`. -/
theorem c4_empty_string_counterexample :
    resolveChunks
        (.vMap [("event", .vMap [("type", .vStr "user.created"),
          ("payload", .vMap [("tier", .vStr "basic")]), ("metadata", .vMap []),
          ("timestamp", .vInt 1700000000)]), ("variables", .vMap [])])
        [.ref ["variables", "missing"]] = .ok "<no value>" ∧
      ("<no value>" : String) ≠ "" := by
  exact ⟨rfl, by decide⟩

/-- The step-validation loop accepts exactly the step lists whose every step
has a name, an action, and an acceptable retry configuration. -/
theorem validateSteps_eq_none_iff : ∀ (steps : List WorkflowStep) (i : Nat),
    validateSteps steps i = none ↔
      steps.all (fun step => step.Name != "" && step.Action != "" && retryOk step.Retry) = true := by
  intro steps
  induction steps with
  | nil => intro i; simp [validateSteps]
  | cons step rest ih =>
    intro i
    by_cases hn : step.Name = ""
    · simp [validateSteps, hn]
    · by_cases ha : step.Action = ""
      · simp [validateSteps, hn, ha]
      · cases hr : step.Retry with
        | none => simp [validateSteps, hn, ha, hr, retryOk, ih (i + 1)]
        | some r =>
          by_cases hm : r.Max < 1
          · have hdec : ¬(1 ≤ r.Max) := by omega
            simp [validateSteps, hn, ha, hr, hm, retryOk, hdec]
          · by_cases hb : r.Backoff ≠ "" ∧ r.Backoff ≠ "exponential" ∧ r.Backoff ≠ "linear"
            · obtain ⟨hb1, hb2, hb3⟩ := hb
              simp [validateSteps, hn, ha, hr, hm, hb1, hb2, hb3, retryOk]
            · have hbimp := hb
              push_neg at hbimp
              have hbeq : (r.Backoff == "" || r.Backoff == "exponential" ||
                  r.Backoff == "linear") = true := by
                by_cases h1 : r.Backoff = ""
                · simp [h1]
                · by_cases h2 : r.Backoff = "exponential"
                  · simp [h2]
                  · simp [hbimp h1 h2]
              have h1 : 1 ≤ r.Max := by omega
              simp [validateSteps, hn, ha, hr, hm, hb, retryOk, hbeq, h1, ih (i + 1)]

/-- C7 (amended) — workflow loading accepts a definition exactly when it is
well-formed with the recognized backoff set \x7bempty, exponential, linear\x7d:
it rejects (with a descriptive error) a missing name, missing trigger event,
zero steps, a step with missing name or action, retry.max < 1, or a backoff
outside that set, and accepts everything else. -/
theorem c7_validation_accepts_iff_wellformed (w : Workflow) :
    validateWorkflow w = none ↔ wellFormedWorkflow w = true := by
  unfold validateWorkflow wellFormedWorkflow
  by_cases hn : w.Name = ""
  · simp [hn]
  · rw [if_neg hn]
    by_cases he : w.OnEvent = ""
    · simp [hn, he]
    · rw [if_neg he]
      by_cases hs : w.Workflow.length = 0
      · have hnil : w.Workflow = [] := List.length_eq_zero.mp hs
        simp [hn, he, hnil]
      · rw [if_neg hs]
        have hne : w.Workflow.isEmpty = false := by
          cases hwl : w.Workflow with
          | nil => rw [hwl] at hs; simp at hs
          | cons a l => simp [hwl]
        simp [hn, he, hne, validateSteps_eq_none_iff w.Workflow 0]

/-- C7 counterexample — the claim says the recognized backoff set includes
`fixed`; the validator rejects a well-formed single-step workflow whose
retry backoff is `fixed`. -/
theorem c7_fixed_backoff_counterexample :
    validateWorkflow ⟨"wf", "user.created", [⟨"s1", "log.info", "", [], some ⟨3, "fixed"⟩⟩]⟩ =
      some "step 0 (s1): retry.backoff must be \x27exponential\x27 or \x27linear\x27" := by
  rfl

/-- C8 — registering workflow A then workflow B under the same event type
leaves B active: `GetWorkflowForEvent` for that event returns B with the
found flag, and every other event type's registration is unaffected. -/
theorem c8_register_last_writer_wins (e : Engine) (A B : Workflow)
    (h : A.OnEvent = B.OnEvent) :
    GetWorkflowForEvent (RegisterWorkflow (RegisterWorkflow e A) B) B.OnEvent =
        (some B, true) ∧
      ∀ ev, ev ≠ B.OnEvent →
        GetWorkflowForEvent (RegisterWorkflow (RegisterWorkflow e A) B) ev =
          GetWorkflowForEvent e ev := by
  constructor
  · simp [GetWorkflowForEvent, RegisterWorkflow]
  · intro ev hne
    simp [GetWorkflowForEvent, RegisterWorkflow, hne, h ▸ hne]

/-- Witness for C8 with two concrete workflows registered under
`user.created`. -/
theorem c8_register_last_writer_wins_witness :
    GetWorkflowForEvent
        (RegisterWorkflow (RegisterWorkflow ⟨fun _ => none⟩ ⟨"A", "user.created", []⟩)
          ⟨"B", "user.created", []⟩) "user.created" =
      (some ⟨"B", "user.created", []⟩, true) :=
  (c8_register_last_writer_wins ⟨fun _ => none⟩ ⟨"A", "user.created", []⟩
    ⟨"B", "user.created", []⟩ rfl).1

/-- A step execution's JSON document decodes back to the step execution. -/
theorem decodeStep_encodeStep (se : StepExecution) : decodeStep (encodeStep se) = some se := by
  simp [decodeStep, encodeStep, assocLookup, asStr, asNat, asBool]

/-- The step history array round-trips through its JSON encoding. -/
theorem decodeStepList_map_encodeStep : ∀ xs : List StepExecution,
    decodeStepList (xs.map encodeStep) = some xs := by
  intro xs
  induction xs with
  | nil => rfl
  | cons hd tl ih => simp [decodeStepList, decodeStep_encodeStep, ih]

/-- C9 — after `SaveWorkflowInstance` succeeds, `GetWorkflowInstance` of the
same id in the same process returns the saved instance: in particular its
id, status, step count and per-step statuses are those that were saved. -/
theorem c9_save_get_roundtrip (j : JSONPersistence) (inst : WorkflowInstance) :
    GetWorkflowInstance (SaveWorkflowInstance j inst) inst.ID = .ok inst := by
  simp [GetWorkflowInstance, SaveWorkflowInstance, decodeInstance, encodeInstance,
    assocLookup, asStr, asNat, asBool, decodeStepList_map_encodeStep]

/-- C10 — the trigger helper threads one and the same map as both the event
payload and the context variables, so a step's recorded non-nil output,
written into the variables, is also readable as `event.payload.<stepName>`
in the template data tree of later steps: the event is not immutable during
execution. -/
theorem c10_payload_variables_aliasing (eventType : String) (contextDataRef : Nat) (ts : Int)
    (h : Heap) (stepName : String) (output : Value) :
    (mkEventContext eventType contextDataRef ts).Event.PayloadRef =
        (mkEventContext eventType contextDataRef ts).VariablesRef ∧
      payloadLookup (setStepOutput h (mkEventContext eventType contextDataRef ts) stepName output)
          (mkEventContext eventType contextDataRef ts) stepName = some output ∧
      evalPath
          (buildTemplateData
            (setStepOutput h (mkEventContext eventType contextDataRef ts) stepName output)
            (mkEventContext eventType contextDataRef ts))
          ["event", "payload", stepName] = .ok (some output) := by
  refine ⟨rfl, ?_, ?_⟩
  · simp [payloadLookup, setStepOutput, Heap.update, mkEventContext,
      assocLookup_assocSet_self]
  · simp [evalPath, evalPathAux, evalField, buildTemplateData, setStepOutput, Heap.update,
      mkEventContext, assocLookup, assocLookup_assocSet_self]

end Conduktr
